import Mathlib

/-!
Shallow embedding of the Job lifecycle and deduplication engine of the
`phlc-django-admin` repository (Django app `ingestion`).

The embedding models:
* the `Job` ORM model and its mutation helpers (`src/ingestion/models.py`),
* the deduplication gate `has_successful_job` (`src/ingestion/services.py`),
* the intake views `IngestViewSet.ingest_postgres` and
  `S3UploadViewSet.upload_to_s3` (`src/ingestion/views.py`),
* the Celery task error handlers (`src/ingestion/tasks.py`),
* the admin action `retry_failed_jobs` (`src/ingestion/admin.py`),
* the path normalizer and directory hasher (`src/ingestion/services.py`),
  including an executable SHA-256 (the semantics of Python `hashlib.sha256`).

The database is modeled as a `List Job` ordered newest-first, matching the
model Meta ordering `['-created_at']`, so that Django `.first()` corresponds
to `List.find?`.  Timestamps (`created_at`, `updated_at`) are DB-managed
bookkeeping and are left out of the record.
-/

/-- Equality on `Except` results is decidable when it is on both
components; needed to evaluate concrete runs of the fallible functions. -/
instance {ε α : Type} [DecidableEq ε] [DecidableEq α] : DecidableEq (Except ε α)
  | .error e1, .error e2 =>
    if h : e1 = e2 then .isTrue (congrArg Except.error h)
    else .isFalse (fun hc => h (by injection hc))
  | .error _, .ok _ => .isFalse (fun hc => Except.noConfusion hc)
  | .ok _, .error _ => .isFalse (fun hc => Except.noConfusion hc)
  | .ok v1, .ok v2 =>
    if h : v1 = v2 then .isTrue (congrArg Except.ok h)
    else .isFalse (fun hc => h (by injection hc))

namespace Phlc

/-- Job status enumeration, from `Job.STATUS_CHOICES` in models.py. -/
inductive Status where
  | queued
  | running
  | completed
  | failed
deriving DecidableEq, Repr

/-- Ingestion channel enumeration, from `Job.INGESTION_TYPE_CHOICES`. -/
inductive IngestionType where
  | postgres
  | s3
deriving DecidableEq, Repr

/-- The `Job` model row (models.py lines 37-161).  `id` is modeled as `Nat`
(the code uses a UUID; only freshness/equality matter).  The two timestamp
columns are auto-managed by the ORM and are omitted. -/
structure Job where
  id : Nat
  file_hash : String
  ingestion_type : IngestionType
  status : Status
  table_name : Option String := none
  inserted_count : Option Int := none
  file_names : Option String := none
  file_count : Option Int := none
  message : Option String := none
  retry_count : Nat := 0
deriving DecidableEq, Repr

/-- Optional keyword arguments accepted by `mark_failed(**kwargs)`: the
result fields the spec designates for merging.  A field `some v` means the
keyword was passed with value `v`; `none` means it was absent.  (Visible call
sites only ever pass result fields, which is what this models.) -/
structure ResultFields where
  table_name : Option String := none
  inserted_count : Option Int := none
  file_names : Option String := none
  file_count : Option Int := none
deriving DecidableEq, Repr

/-- Keyword arguments accepted by `mark_completed(**kwargs)`: the result
fields plus `message` (tests call `mark_completed(message=...)`). -/
structure CompletedKwargs extends ResultFields where
  message : Option String := none
deriving DecidableEq, Repr

/-- Merge present keyword result fields into a job, as the
`for key, value in kwargs.items(): setattr(self, key, value)` loop does. -/
def applyResultFields (j : Job) (kw : ResultFields) : Job :=
  { j with
    table_name := match kw.table_name with | some v => some v | none => j.table_name
    inserted_count := match kw.inserted_count with | some v => some v | none => j.inserted_count
    file_names := match kw.file_names with | some v => some v | none => j.file_names
    file_count := match kw.file_count with | some v => some v | none => j.file_count }

/-- `Job.mark_completed(**kwargs)` (models.py lines 140-146): set status to
completed, then merge keyword fields. -/
def mark_completed (j : Job) (kw : CompletedKwargs) : Job :=
  let j := { j with status := Status.completed }
  let j := applyResultFields j kw.toResultFields
  { j with message := match kw.message with | some v => some v | none => j.message }

/-- Python truthiness of the `message` argument of `mark_failed`: `None` and
the empty string are falsy. -/
def msgTruthy : Option String → Bool
  | none => false
  | some s => !(s == "")

/-- `Job.mark_failed(message=None, **kwargs)` (models.py lines 148-156): set
status to failed, overwrite `message` only when the argument is truthy, then
merge keyword fields. -/
def mark_failed (j : Job) (message : Option String) (kw : ResultFields) : Job :=
  let j := { j with status := Status.failed }
  let j := if msgTruthy message then { j with message := message } else j
  applyResultFields j kw

/-- `Job.increment_retry()` (models.py lines 158-161). -/
def increment_retry (j : Job) : Job :=
  { j with retry_count := j.retry_count + 1 }

/-- Python `s[:n]`: truncate a string to its first `n` characters. -/
def pySlice (s : String) (n : Nat) : String :=
  String.mk (s.toList.take n)

/-- Error-handler step of `process_uploaded_file_task` (tasks.py lines
72-97): on a processing exception, if `retry_count < 5` increment the retry
count, keep the job `running`, annotate `message`, and re-enqueue with
countdown `60 * new_retry_count` (returned as `some countdown`); otherwise
mark the job failed (no re-enqueue, returned as `none`). -/
def process_uploaded_file_failure (j : Job) (err : String) : Job × Option Nat :=
  if j.retry_count < 5 then
    let n := j.retry_count + 1
    ({ j with
        retry_count := n
        status := Status.running
        message := some ("Retry " ++ toString n ++ "/5 - Previous error: " ++ pySlice err 200) },
      some (60 * n))
  else
    (mark_failed j (some ("Failed after 5 retries. Last error: " ++ pySlice err 500)) {}, none)

/-- Error-handler step of `process_s3_upload_task` (tasks.py lines 143-152):
on a processing exception the job is marked failed immediately and the
exception is re-raised; the handler never calls `self.retry`, so no
re-enqueue of the unit of work is requested (`none`). -/
def process_s3_upload_failure (j : Job) (err : String) : Job × Option Nat :=
  (mark_failed j (some ("S3 upload failed: " ++ pySlice err 500)) {}, none)

/-- Error-handler step of `process_s3_directory_upload_task` (tasks.py lines
193-202): same shape as the single-file S3 handler. -/
def process_s3_directory_upload_failure (j : Job) (err : String) : Job × Option Nat :=
  (mark_failed j (some ("S3 directory upload failed: " ++ pySlice err 500)) {}, none)

/-- Celery decorator argument `max_retries` on the three ingestion tasks. -/
def ingestion_task_max_retries : Nat := 5

/-- Celery decorator argument `default_retry_delay` on the ingestion tasks. -/
def ingestion_task_default_retry_delay : Nat := 60

/-- A single job mutation performed somewhere in the visible code base; used
to state that `retry_count` never decreases. -/
inductive LifecycleOp where
  | markCompleted (kw : CompletedKwargs)
  | markFailed (msg : Option String) (kw : ResultFields)
  | incrementRetry
  | adminRetry
  | uploadedFileFailure (err : String)
  | s3UploadFailure (err : String)
  | s3DirectoryUploadFailure (err : String)

/-- Effect of the admin action `retry_failed_jobs` on one selected job
(admin.py lines 16-26): rows with status failed get status queued and the
annotation message; other rows are untouched by the filtered update. -/
def adminRetryJob (j : Job) : Job :=
  if j.status == Status.failed then
    { j with status := Status.queued, message := some "Retried from admin" }
  else
    j

/-- Apply one lifecycle operation to a job (projecting the task handlers to
their job component). -/
def applyOp (op : LifecycleOp) (j : Job) : Job :=
  match op with
  | .markCompleted kw => mark_completed j kw
  | .markFailed msg kw => mark_failed j msg kw
  | .incrementRetry => increment_retry j
  | .adminRetry => adminRetryJob j
  | .uploadedFileFailure err => (process_uploaded_file_failure j err).1
  | .s3UploadFailure err => (process_s3_upload_failure j err).1
  | .s3DirectoryUploadFailure err => (process_s3_directory_upload_failure j err).1

/-- The admin action `retry_failed_jobs` (admin.py lines 16-26) applied to a
database: `queryset.filter(status='failed').update(status='queued',
message='Retried from admin')` over the selected row ids. -/
def retry_failed_jobs (db : List Job) (selected : List Nat) : List Job :=
  db.map fun j =>
    if j.id ∈ selected ∧ j.status = Status.failed then
      { j with status := Status.queued, message := some "Retried from admin" }
    else
      j

/-- `has_successful_job(file_hash, ingestion_type)` (services.py lines
141-148): true iff a job row matches the hash, the channel, and status
completed. -/
def has_successful_job (db : List Job) (h : String) (t : IngestionType) : Bool :=
  db.any fun j => j.file_hash == h && j.ingestion_type == t && j.status == Status.completed

/-- Response shape produced by the intake views (`IngestResponseSerializer`
payload). -/
structure IngestResponse where
  job_id : Nat
  message : String
  file_hash : String
  status : Status
  ingestion_type : IngestionType
  is_duplicate : Bool
deriving DecidableEq, Repr

/-- A unit of background work handed to Celery by an intake view. -/
inductive DispatchCall where
  | processUploadedFile (jobId : Nat)
  | processS3Upload (jobId : Nat)
  | processS3Directory (jobId : Nat)
deriving DecidableEq, Repr

/-- Result of running an intake view: the HTTP response body, the new
database state, and the background work dispatched. -/
structure ViewResult where
  response : IngestResponse
  db : List Job
  dispatched : List DispatchCall
deriving Repr

/-- Human-readable status text used in view messages. -/
def statusText : Status → String
  | .queued => "queued"
  | .running => "running"
  | .completed => "completed"
  | .failed => "failed"

/-- Job-creation arm of `ingest_postgres` (views.py lines 135-154): create a
job with status running and schedule `process_uploaded_file_task`. -/
def ingestPostgresCreate (db : List Job) (fileHash : String) (newId : Nat) : ViewResult :=
  let job : Job := { id := newId, file_hash := fileHash,
                     ingestion_type := IngestionType.postgres, status := Status.running }
  { response := { job_id := job.id, message := "PostgreSQL ingestion started",
                  file_hash := job.file_hash, status := job.status,
                  ingestion_type := job.ingestion_type, is_duplicate := false }
    db := job :: db
    dispatched := [DispatchCall.processUploadedFile job.id] }

/-- `IngestViewSet.ingest_postgres` (views.py lines 103-154) from the point
where the payload has been hashed (`fileHash` is `compute_sha256_bytes` of
the upload, cf. `sha256Hex` below): short-circuit as a duplicate when a
completed job for the hash exists on the Postgres channel, otherwise create
a running job and dispatch work.  `newId` models the fresh UUID. -/
def ingest_postgres (db : List Job) (fileHash : String) (newId : Nat) : ViewResult :=
  if has_successful_job db fileHash IngestionType.postgres then
    match db.find? (fun j => j.file_hash == fileHash &&
        j.ingestion_type == IngestionType.postgres && j.status == Status.completed) with
    | some cj =>
      { response := { job_id := cj.id,
                      message := "File already successfully ingested to PostgreSQL. Status: "
                        ++ statusText cj.status,
                      file_hash := cj.file_hash, status := cj.status,
                      ingestion_type := cj.ingestion_type, is_duplicate := true }
        db := db
        dispatched := [] }
    | none => ingestPostgresCreate db fileHash newId
  else
    ingestPostgresCreate db fileHash newId

/-- Payload classification computed by `upload_to_s3` before the dedup
check (views.py lines 267-318). -/
inductive PayloadKind where
  | single
  | directoryArchive
  | rawDirectory
deriving DecidableEq, Repr

/-- Job-creation arm of `upload_to_s3` (views.py lines 336-368): create a
running job and dispatch the task matching the payload kind. -/
def uploadToS3Create (db : List Job) (fileHash : String) (newId : Nat)
    (kind : PayloadKind) : ViewResult :=
  let job : Job := { id := newId, file_hash := fileHash,
                     ingestion_type := IngestionType.s3, status := Status.running }
  { response := { job_id := job.id, message := "S3 upload started",
                  file_hash := job.file_hash, status := job.status,
                  ingestion_type := job.ingestion_type, is_duplicate := false }
    db := job :: db
    dispatched := [match kind with
      | .rawDirectory => DispatchCall.processS3Directory job.id
      | _ => DispatchCall.processS3Upload job.id] }

/-- `S3UploadViewSet.upload_to_s3` (views.py lines 320-368) from the point
where the payload has been validated and fingerprinted: any existing job for
the hash on the S3 channel — whatever its status — short-circuits as a
duplicate; otherwise a running job is created and work dispatched. -/
def upload_to_s3 (db : List Job) (fileHash : String) (newId : Nat)
    (kind : PayloadKind) : ViewResult :=
  match db.find? (fun j => j.file_hash == fileHash &&
      j.ingestion_type == IngestionType.s3) with
  | some existing =>
    { response := { job_id := existing.id,
                    message := "File already uploaded to S3. Current status: "
                      ++ statusText existing.status,
                    file_hash := existing.file_hash, status := existing.status,
                    ingestion_type := existing.ingestion_type, is_duplicate := true }
      db := db
      dispatched := [] }
  | none => uploadToS3Create db fileHash newId kind

/-! ### Path normalizer (`normalize_relative_path`, services.py lines 92-109)

Python strings are embedded as `List Char` so that the character-level
operations (`replace`, `strip`, `lstrip`, `split`, `join`) have direct
structural definitions. -/

/-- Error raised by `normalize_relative_path` (all are `ValueError` in the
code; the constructor records which message). -/
inductive PathError where
  | emptyFilename
  | traversal
  | emptyResult
deriving DecidableEq, Repr

/-- Python `filename.replace(chr(92), chr(47))`: turn every backslash into a
forward slash. -/
def replaceBackslash (s : List Char) : List Char :=
  s.map fun c => if c = '\\' then '/' else c

/-- Whitespace characters removed by Python `str.strip()` (ASCII range). -/
def isPySpace (c : Char) : Bool :=
  c = ' ' || c = '\t' || c = '\n' || c = '\r' || c = '\x0b' || c = '\x0c'

/-- Python `str.strip()`: drop whitespace from both ends. -/
def pyStrip (s : List Char) : List Char :=
  ((s.dropWhile isPySpace).reverse.dropWhile isPySpace).reverse

/-- Python `path.split(chr(47))`: split on every slash, keeping empty pieces
(the empty string splits to one empty piece). -/
def splitSlash : List Char → List (List Char)
  | [] => [[]]
  | c :: cs =>
    let r := splitSlash cs
    if c = '/' then [] :: r else (c :: r.headI) :: r.tail

/-- The segment-collection loop of `normalize_relative_path`: skip empty and
`.` segments, fail on `..`, keep everything else in order. -/
def collectSegments : List (List Char) → Except PathError (List (List Char))
  | [] => Except.ok []
  | s :: rest =>
    if s = [] ∨ s = ['.'] then collectSegments rest
    else if s = ['.', '.'] then Except.error PathError.traversal
    else (collectSegments rest).map (s :: ·)

/-- Python slash-join of the collected segments. -/
def joinSlash : List (List Char) → List Char
  | [] => []
  | [s] => s
  | s :: s2 :: rest => s ++ '/' :: joinSlash (s2 :: rest)

/-- `normalize_relative_path(filename)` (services.py lines 92-109): unify
separators, strip outer whitespace, reject the empty path, strip leading
slashes, drop empty and `.` segments, reject `..` segments, and rejoin. -/
def normalize_relative_path (filename : List Char) : Except PathError (List Char) :=
  let path := pyStrip (replaceBackslash filename)
  if path = [] then Except.error PathError.emptyFilename
  else
    let path := if path.head? = some '/' then path.dropWhile (· = '/') else path
    match collectSegments (splitSlash path) with
    | Except.error e => Except.error e
    | Except.ok segs =>
      let normalized := joinSlash segs
      if normalized = [] then Except.error PathError.emptyResult
      else Except.ok normalized

/-- The cleaned form of an input path: separators unified and outer
whitespace stripped, exactly as `normalize_relative_path` preprocesses it. -/
def cleanedPath (filename : List Char) : List Char :=
  pyStrip (replaceBackslash filename)

/-- A path contains a directory-traversal segment when splitting its cleaned
form on slashes yields a `..` piece. -/
def hasTraversalSegment (filename : List Char) : Prop :=
  ['.', '.'] ∈ splitSlash (cleanedPath filename)

instance (filename : List Char) : Decidable (hasTraversalSegment filename) := by
  unfold hasTraversalSegment
  infer_instance

/-! ### SHA-256 (semantics of Python `hashlib.sha256`) and
`compute_directory_hash` (services.py lines 111-121)

Bytes are `Nat` values below 256; 32-bit words are `Nat` values reduced
modulo `2^32` after every arithmetic step (FIPS 180-4). -/

/-- Add two 32-bit words. -/
def add32 (a b : Nat) : Nat := (a + b) % 4294967296

/-- Rotate a 32-bit word right by `n` bits. -/
def rotr32 (n x : Nat) : Nat := ((x >>> n) ||| (x <<< (32 - n))) % 4294967296

/-- SHA-256 choice function. -/
def chooseF (x y z : Nat) : Nat := (x &&& y) ^^^ ((x ^^^ 4294967295) &&& z)

/-- SHA-256 majority function. -/
def majorityF (x y z : Nat) : Nat := (x &&& y) ^^^ (x &&& z) ^^^ (y &&& z)

/-- SHA-256 big sigma 0. -/
def bigSigma0 (x : Nat) : Nat := rotr32 2 x ^^^ rotr32 13 x ^^^ rotr32 22 x

/-- SHA-256 big sigma 1. -/
def bigSigma1 (x : Nat) : Nat := rotr32 6 x ^^^ rotr32 11 x ^^^ rotr32 25 x

/-- SHA-256 small sigma 0. -/
def smallSigma0 (x : Nat) : Nat := rotr32 7 x ^^^ rotr32 18 x ^^^ (x >>> 3)

/-- SHA-256 small sigma 1. -/
def smallSigma1 (x : Nat) : Nat := rotr32 17 x ^^^ rotr32 19 x ^^^ (x >>> 10)

/-- The 64 SHA-256 round constants of FIPS 180-4 (the fractional parts of
the cube roots of the first 64 primes), written in decimal. -/
def roundConsts : List Nat :=
  [1116352408, 1899447441, 3049323471, 3921009573, 961987163, 1508970993,
   2453635748, 2870763221, 3624381080, 310598401, 607225278, 1426881987,
   1925078388, 2162078206, 2614888103, 3248222580, 3835390401, 4022224774,
   264347078, 604807628, 770255983, 1249150122, 1555081692, 1996064986,
   2554220882, 2821834349, 2952996808, 3210313671, 3336571891, 3584528711,
   113926993, 338241895, 666307205, 773529912, 1294757372, 1396182291,
   1695183700, 1986661051, 2177026350, 2456956037, 2730485921, 2820302411,
   3259730800, 3345764771, 3516065817, 3600352804, 4094571909, 275423344,
   430227734, 506948616, 659060556, 883997877, 958139571, 1322822218,
   1537002063, 1747873779, 1955562222, 2024104815, 2227730452, 2361852424,
   2428436474, 2756734187, 3204031479, 3329325298]

/-- The 8 working registers of the compression function. -/
structure Hash8 where
  a : Nat
  b : Nat
  c : Nat
  d : Nat
  e : Nat
  f : Nat
  g : Nat
  h : Nat
deriving DecidableEq, Repr

/-- The SHA-256 initial hash value of FIPS 180-4, written in decimal. -/
def initH : Hash8 :=
  { a := 1779033703, b := 3144134277, c := 1013904242, d := 2773480762,
    e := 1359893119, f := 2600822924, g := 528734635, h := 1541459225 }

/-- Big-endian byte serialization of `n` into exactly `k` bytes, the
semantics of the Python 8-byte big-endian length prefix. -/
def lenBE : Nat → Nat → List Nat
  | 0, _ => []
  | k + 1, n => lenBE k (n >>> 8) ++ [n &&& 255]

/-- SHA-256 message padding: append `0x80`, zero bytes to 56 mod 64, then
the bit length as 8 big-endian bytes. -/
def sha256Pad (msg : List Nat) : List Nat :=
  let L := msg.length
  let z := (120 - ((L + 1) % 64)) % 64
  msg ++ 128 :: List.replicate z 0 ++ lenBE 8 (8 * L)

/-- Group bytes four at a time into big-endian 32-bit words. -/
def bytesToWords : List Nat → List Nat
  | b0 :: b1 :: b2 :: b3 :: rest =>
    (((b0 * 256 + b1) * 256 + b2) * 256 + b3) :: bytesToWords rest
  | _ => []

/-- Extend the (reversed) word list by `n` schedule words. -/
def extendSchedule (ws : List Nat) : Nat → List Nat
  | 0 => ws.reverse
  | n + 1 =>
    let w := add32 (add32 (smallSigma1 (ws.getD 1 0)) (ws.getD 6 0))
                   (add32 (smallSigma0 (ws.getD 14 0)) (ws.getD 15 0))
    extendSchedule (w :: ws) n

/-- The 64-entry message schedule of one 64-byte block. -/
def messageSchedule (block : List Nat) : List Nat :=
  extendSchedule (bytesToWords block).reverse 48

/-- One round of the SHA-256 compression function. -/
def roundStep (st : Hash8) (k w : Nat) : Hash8 :=
  let t1 := add32 (add32 (add32 st.h (bigSigma1 st.e)) (add32 (chooseF st.e st.f st.g) k)) w
  let t2 := add32 (bigSigma0 st.a) (majorityF st.a st.b st.c)
  { a := add32 t1 t2, b := st.a, c := st.b, d := st.c,
    e := add32 st.d t1, f := st.e, g := st.f, h := st.g }

/-- Compress one 64-byte block into the running hash state. -/
def compressBlock (st : Hash8) (block : List Nat) : Hash8 :=
  let fin := (roundConsts.zip (messageSchedule block)).foldl
    (fun s kw => roundStep s kw.1 kw.2) st
  { a := add32 st.a fin.a, b := add32 st.b fin.b, c := add32 st.c fin.c,
    d := add32 st.d fin.d, e := add32 st.e fin.e, f := add32 st.f fin.f,
    g := add32 st.g fin.g, h := add32 st.h fin.h }

/-- Split a byte list into 64-byte chunks (fuel-recursive so that it
reduces; the fuel `l.length` always suffices since every chunk consumes at
least one byte). -/
def chunk64Fuel : Nat → List Nat → List (List Nat)
  | 0, _ => []
  | _, [] => []
  | fuel + 1, c :: rest => (List.take 64 (c :: rest)) :: chunk64Fuel fuel (List.drop 64 (c :: rest))

/-- Split a byte list into 64-byte chunks. -/
def chunk64 (l : List Nat) : List (List Nat) :=
  chunk64Fuel l.length l

/-- SHA-256 of a byte sequence, as 32 digest bytes. -/
def sha256 (msg : List Nat) : List Nat :=
  let fin := (chunk64 (sha256Pad msg)).foldl compressBlock initH
  lenBE 4 fin.a ++ lenBE 4 fin.b ++ lenBE 4 fin.c ++ lenBE 4 fin.d ++
  lenBE 4 fin.e ++ lenBE 4 fin.f ++ lenBE 4 fin.g ++ lenBE 4 fin.h

/-- Lowercase hex character for a value below 16. -/
def hexChar (n : Nat) : Char :=
  if n < 10 then Char.ofNat (48 + n) else Char.ofNat (87 + n)

/-- Lowercase hex digest string of a byte list (Python `hexdigest()`). -/
def hexDigest (bytes : List Nat) : String :=
  String.mk (bytes.foldr (fun b acc => hexChar (b / 16) :: hexChar (b % 16) :: acc) [])

/-- `compute_sha256_bytes` (services.py lines 39-43): hex digest of the
SHA-256 of the payload bytes. -/
def sha256Hex (msg : List Nat) : String := hexDigest (sha256 msg)

/-- UTF-8 encoding of one character (Python `str.encode` semantics). -/
def utf8Char (c : Char) : List Nat :=
  let n := c.toNat
  if n < 128 then [n]
  else if n < 2048 then [192 ||| (n >>> 6), 128 ||| (n &&& 63)]
  else if n < 65536 then
    [224 ||| (n >>> 12), 128 ||| ((n >>> 6) &&& 63), 128 ||| (n &&& 63)]
  else
    [240 ||| (n >>> 18), 128 ||| ((n >>> 12) &&& 63),
     128 ||| ((n >>> 6) &&& 63), 128 ||| (n &&& 63)]

/-- UTF-8 encoding of a string. -/
def utf8Encode (s : List Char) : List Nat :=
  s.foldr (fun c acc => utf8Char c ++ acc) []

/-- One `(path, content)` entry of a directory payload. -/
structure DirEntry where
  path : List Char
  content : List Nat
deriving DecidableEq, Repr

/-- Python string `<` (lexicographic on code points), as used by the sort
key of `compute_directory_hash`. -/
def strLt : List Char → List Char → Bool
  | [], [] => false
  | [], _ :: _ => true
  | _ :: _, [] => false
  | a :: as, b :: bs =>
    if a < b then true
    else if b < a then false
    else strLt as bs

/-- Non-strict comparison on entries by path, driving the stable sort
(`sorted(entries, key=lambda e: e[...])`). -/
def entryLe (e1 e2 : DirEntry) : Bool := !(strLt e2.path e1.path)

/-- Bytes mixed into the digest for one entry: UTF-8 path, 8-byte big-endian
content length, content. -/
def entryBytes (e : DirEntry) : List Nat :=
  utf8Encode e.path ++ lenBE 8 e.content.length ++ e.content

/-- The full byte stream fed to the hash by `compute_directory_hash`:
entries stably sorted by path, each contributing `entryBytes`. -/
def dirTranscript (entries : List DirEntry) : List Nat :=
  (entries.mergeSort entryLe).foldr (fun e acc => entryBytes e ++ acc) []

/-- Error raised by `compute_directory_hash` on an empty entry list. -/
inductive DirHashError where
  | noFiles
deriving DecidableEq, Repr

/-- `compute_directory_hash(entries)` (services.py lines 111-121): reject an
empty list, otherwise hash the sorted transcript. -/
def compute_directory_hash (entries : List DirEntry) : Except DirHashError String :=
  if entries = [] then Except.error DirHashError.noFiles
  else Except.ok (sha256Hex (dirTranscript entries))

/-! ### Claim theorems -/

/-- Sample running Postgres job used to instantiate hypothesis-bearing
theorems. -/
def jSample : Job :=
  { id := 1, file_hash := "h", ingestion_type := IngestionType.postgres,
    status := Status.running, message := some "old" }

/-- Keyword merging never touches `retry_count`. -/
lemma applyResultFields_retry_count (j : Job) (kw : ResultFields) :
    (applyResultFields j kw).retry_count = j.retry_count := rfl

/-- Keyword merging never touches `status`. -/
lemma applyResultFields_status (j : Job) (kw : ResultFields) :
    (applyResultFields j kw).status = j.status := rfl

/-- Keyword merging never touches `message`. -/
lemma applyResultFields_message (j : Job) (kw : ResultFields) :
    (applyResultFields j kw).message = j.message := rfl

/-- `mark_failed` never touches `retry_count`. -/
lemma mark_failed_retry_count (j : Job) (m : Option String) (kw : ResultFields) :
    (mark_failed j m kw).retry_count = j.retry_count := by
  simp only [mark_failed, applyResultFields_retry_count]
  split <;> rfl

/-- `mark_failed` always sets status failed. -/
lemma mark_failed_status (j : Job) (m : Option String) (kw : ResultFields) :
    (mark_failed j m kw).status = Status.failed := by
  simp only [mark_failed, applyResultFields_status]
  split <;> rfl

/-- The message stored by `mark_failed` is the argument when truthy, the
prior message otherwise. -/
lemma mark_failed_message (j : Job) (m : Option String) (kw : ResultFields) :
    (mark_failed j m kw).message = if msgTruthy m then m else j.message := by
  simp only [mark_failed, applyResultFields_message]
  split <;> rfl

/-- C9: `Job.increment_retry` increases `retry_count` by exactly one and
leaves every other field (id, status, file_hash, ingestion_type, table_name,
inserted_count, file_names, file_count, message) unchanged; and no lifecycle
operation in the visible code base ever decreases `retry_count`. -/
theorem increment_retry_frame_and_retry_monotone :
    (∀ j : Job,
      (increment_retry j).retry_count = j.retry_count + 1 ∧
      (increment_retry j).status = j.status ∧
      (increment_retry j).file_hash = j.file_hash ∧
      (increment_retry j).ingestion_type = j.ingestion_type ∧
      (increment_retry j).table_name = j.table_name ∧
      (increment_retry j).inserted_count = j.inserted_count ∧
      (increment_retry j).file_names = j.file_names ∧
      (increment_retry j).file_count = j.file_count ∧
      (increment_retry j).message = j.message ∧
      (increment_retry j).id = j.id) ∧
    (∀ (op : LifecycleOp) (j : Job), j.retry_count ≤ (applyOp op j).retry_count) := by
  constructor
  · intro j
    simp [increment_retry]
  · intro op j
    cases op with
    | markCompleted kw => simp [applyOp, mark_completed, applyResultFields]
    | markFailed msg kw => simp [applyOp, mark_failed_retry_count]
    | incrementRetry => simp [applyOp, increment_retry]
    | adminRetry =>
      simp only [applyOp, adminRetryJob]
      split <;> simp
    | uploadedFileFailure err =>
      simp only [applyOp, process_uploaded_file_failure]
      split <;> simp [mark_failed_retry_count]
    | s3UploadFailure err =>
      simp [applyOp, process_s3_upload_failure, mark_failed_retry_count]
    | s3DirectoryUploadFailure err =>
      simp [applyOp, process_s3_directory_upload_failure, mark_failed_retry_count]

/-- C10: `Job.mark_failed` always sets status to failed, but overwrites the
stored `message` only when the `message` argument is truthy; with `None` or
any other falsy message the prior message survives. -/
theorem mark_failed_message_truthiness :
    ∀ (j : Job) (m : Option String) (kw : ResultFields),
      (mark_failed j m kw).status = Status.failed ∧
      (msgTruthy m = false → (mark_failed j m kw).message = j.message) ∧
      (msgTruthy m = true → (mark_failed j m kw).message = m) := by
  intro j m kw
  refine ⟨mark_failed_status j m kw, ?_, ?_⟩ <;>
    intro hm <;> simp [mark_failed_message, hm]

/-- Witness for C10 at a concrete job and `message=None`. -/
theorem mark_failed_message_truthiness_witness :
    (mark_failed jSample none {}).status = Status.failed ∧
    (mark_failed jSample none {}).message = jSample.message :=
  ⟨(mark_failed_message_truthiness jSample none {}).1,
   (mark_failed_message_truthiness jSample none {}).2.1 rfl⟩

/-- C8: the admin retry action moves exactly the selected failed jobs to
status queued with the annotation message, preserves their `retry_count` and
all other fields, and leaves every selected job not in failed (and every
unselected job) entirely unchanged. -/
theorem retry_failed_jobs_spec :
    ∀ (db : List Job) (selected : List Nat),
      (retry_failed_jobs db selected).length = db.length ∧
      ∀ (i : Nat) (h1 : i < db.length)
        (h2 : i < (retry_failed_jobs db selected).length),
        (((db.get ⟨i, h1⟩).id ∈ selected ∧ (db.get ⟨i, h1⟩).status = Status.failed →
          ((retry_failed_jobs db selected).get ⟨i, h2⟩).status = Status.queued ∧
          ((retry_failed_jobs db selected).get ⟨i, h2⟩).message = some "Retried from admin" ∧
          ((retry_failed_jobs db selected).get ⟨i, h2⟩).retry_count = (db.get ⟨i, h1⟩).retry_count ∧
          ((retry_failed_jobs db selected).get ⟨i, h2⟩).id = (db.get ⟨i, h1⟩).id ∧
          ((retry_failed_jobs db selected).get ⟨i, h2⟩).file_hash = (db.get ⟨i, h1⟩).file_hash ∧
          ((retry_failed_jobs db selected).get ⟨i, h2⟩).ingestion_type = (db.get ⟨i, h1⟩).ingestion_type ∧
          ((retry_failed_jobs db selected).get ⟨i, h2⟩).table_name = (db.get ⟨i, h1⟩).table_name ∧
          ((retry_failed_jobs db selected).get ⟨i, h2⟩).inserted_count = (db.get ⟨i, h1⟩).inserted_count ∧
          ((retry_failed_jobs db selected).get ⟨i, h2⟩).file_names = (db.get ⟨i, h1⟩).file_names ∧
          ((retry_failed_jobs db selected).get ⟨i, h2⟩).file_count = (db.get ⟨i, h1⟩).file_count) ∧
        (¬ ((db.get ⟨i, h1⟩).id ∈ selected ∧ (db.get ⟨i, h1⟩).status = Status.failed) →
          (retry_failed_jobs db selected).get ⟨i, h2⟩ = db.get ⟨i, h1⟩)) := by
  intro db selected
  refine ⟨by simp [retry_failed_jobs], ?_⟩
  intro i h1 h2
  constructor
  · intro hsel
    simp only [List.get_eq_getElem] at hsel ⊢
    simp [retry_failed_jobs, hsel.1, hsel.2]
  · intro hns
    simp only [List.get_eq_getElem] at hns ⊢
    simp only [retry_failed_jobs, List.getElem_map]
    rw [if_neg hns]

/-- Witness database for C8: one selected failed job, one selected running
job. -/
def dbAdmin : List Job :=
  [{ id := 1, file_hash := "a", ingestion_type := IngestionType.postgres,
     status := Status.failed, retry_count := 3 },
   { id := 2, file_hash := "b", ingestion_type := IngestionType.s3,
     status := Status.running }]

/-- Witness for C8 on a two-job database: the selected failed job is
re-queued with its retry count intact, the selected running job is
untouched. -/
theorem retry_failed_jobs_spec_witness :
    ((retry_failed_jobs dbAdmin [1, 2]).get ⟨0, by decide⟩).status = Status.queued ∧
    ((retry_failed_jobs dbAdmin [1, 2]).get ⟨0, by decide⟩).retry_count =
      (dbAdmin.get ⟨0, by decide⟩).retry_count ∧
    (retry_failed_jobs dbAdmin [1, 2]).get ⟨1, by decide⟩ = dbAdmin.get ⟨1, by decide⟩ := by
  refine ⟨?_, ?_, ?_⟩
  · exact (((retry_failed_jobs_spec dbAdmin [1, 2]).2 0 (by decide) (by decide)).1
      ⟨by decide, by decide⟩).1
  · exact (((retry_failed_jobs_spec dbAdmin [1, 2]).2 0 (by decide) (by decide)).1
      ⟨by decide, by decide⟩).2.2.1
  · exact ((retry_failed_jobs_spec dbAdmin [1, 2]).2 1 (by decide) (by decide)).2
      (fun hc => absurd hc.2 (by decide))

/-- A fresh running S3 job, as `upload_to_s3` creates it. -/
def jS3 : Job :=
  { id := 2, file_hash := "h2", ingestion_type := IngestionType.s3,
    status := Status.running }

/-- Counterexample to C4: a fresh running S3 job (retry count 0) is marked
failed by the very first processing error, with no re-enqueue requested — so
the bounded-retry policy is not applied before the job reaches failed. -/
theorem s3_upload_first_error_counterexample :
    jS3.status = Status.running ∧ jS3.retry_count = 0 ∧
    (process_s3_upload_failure jS3 "boom").1.status = Status.failed ∧
    (process_s3_upload_failure jS3 "boom").2 = none ∧
    (process_s3_directory_upload_failure jS3 "boom").1.status = Status.failed ∧
    (process_s3_directory_upload_failure jS3 "boom").2 = none := by
  refine ⟨rfl, rfl, ?_, rfl, ?_, rfl⟩ <;> decide

/-- C4 (amended): on a processing error the S3 upload tasks (single-file and
directory) mark the job failed immediately with a truncated annotated error,
leave `retry_count` unchanged, and request no re-enqueue — even though the
task decorators declare `max_retries=5` and `default_retry_delay=60`, no
job-level retry happens before the job reaches failed. -/
theorem s3_upload_tasks_fail_immediately :
    ∀ (j : Job) (err : String),
      (process_s3_upload_failure j err).1.status = Status.failed ∧
      (process_s3_upload_failure j err).1.retry_count = j.retry_count ∧
      (process_s3_upload_failure j err).1.message =
        some ("S3 upload failed: " ++ pySlice err 500) ∧
      (process_s3_upload_failure j err).2 = none ∧
      (process_s3_directory_upload_failure j err).1.status = Status.failed ∧
      (process_s3_directory_upload_failure j err).1.retry_count = j.retry_count ∧
      (process_s3_directory_upload_failure j err).1.message =
        some ("S3 directory upload failed: " ++ pySlice err 500) ∧
      (process_s3_directory_upload_failure j err).2 = none ∧
      ingestion_task_max_retries = 5 ∧ ingestion_task_default_retry_delay = 60 := by
  intro j err
  have hne : ∀ s : String, ("S3 upload failed: " ++ s) ≠ "" := by
    intro s hEq
    have hlen := congrArg String.length hEq
    rw [String.length_append, show ("S3 upload failed: " : String).length = 18 from rfl,
        show ("" : String).length = 0 from rfl] at hlen
    omega
  have hne2 : ∀ s : String, ("S3 directory upload failed: " ++ s) ≠ "" := by
    intro s hEq
    have hlen := congrArg String.length hEq
    rw [String.length_append, show ("S3 directory upload failed: " : String).length = 28 from rfl,
        show ("" : String).length = 0 from rfl] at hlen
    omega
  have ht : ∀ s : String, s ≠ "" → msgTruthy (some s) = true := by
    intro s hs
    simp [msgTruthy, hs]
  refine ⟨mark_failed_status .., mark_failed_retry_count .., ?_, rfl,
          mark_failed_status .., mark_failed_retry_count .., ?_, rfl, rfl, rfl⟩
  · rw [show (process_s3_upload_failure j err).1
        = mark_failed j (some ("S3 upload failed: " ++ pySlice err 500)) {} from rfl,
      mark_failed_message, if_pos (ht _ (hne _))]
  · rw [show (process_s3_directory_upload_failure j err).1
        = mark_failed j (some ("S3 directory upload failed: " ++ pySlice err 500)) {} from rfl,
      mark_failed_message, if_pos (ht _ (hne2 _))]

/-- A fresh running Postgres ingestion job, as `ingest_postgres` creates
it. -/
def jPG : Job :=
  { id := 3, file_hash := "h3", ingestion_type := IngestionType.postgres,
    status := Status.running }

/-- Iterate the ingestion-task error handler `n` times on a job (each
iteration is one processing attempt that raises). -/
def failNTimes (j : Job) (err : String) : Nat → Job
  | 0 => j
  | n + 1 => failNTimes (process_uploaded_file_failure j err).1 err n

/-- Counterexample to C3: after the ingestion task has raised an error 5
times, the job is still `running` (not failed) with `retry_count = 5`, and
the fifth failure re-enqueued a 6th processing attempt with countdown 300. -/
theorem ingestion_five_failures_counterexample :
    (failNTimes jPG "err" 5).status = Status.running ∧
    (failNTimes jPG "err" 5).retry_count = 5 ∧
    (process_uploaded_file_failure (failNTimes jPG "err" 4) "err").2 = some 300 := by
  refine ⟨?_, ?_, ?_⟩ <;> decide

/-- C3 (amended): starting from a fresh job (`retry_count = 0`), each of the
first 5 errors increments `retry_count` by one, keeps the job `running`, and
re-enqueues with countdown `60 * new_retry_count`; only the 6th error (after
5 retries) marks the job failed with `retry_count = 5`, and that final
failure requests no further attempt. -/
theorem ingestion_retry_policy :
    (∀ (j : Job) (err : String), j.retry_count < 5 →
      (process_uploaded_file_failure j err).1.retry_count = j.retry_count + 1 ∧
      (process_uploaded_file_failure j err).1.status = Status.running ∧
      (process_uploaded_file_failure j err).2 = some (60 * (j.retry_count + 1))) ∧
    (∀ (j : Job) (err : String), ¬ j.retry_count < 5 →
      (process_uploaded_file_failure j err).1.status = Status.failed ∧
      (process_uploaded_file_failure j err).1.retry_count = j.retry_count ∧
      (process_uploaded_file_failure j err).2 = none) ∧
    (∀ (j : Job) (err : String), j.retry_count = 0 →
      (failNTimes j err 6).status = Status.failed ∧
      (failNTimes j err 6).retry_count = 5 ∧
      (process_uploaded_file_failure (failNTimes j err 5) err).2 = none) := by
  have hstep : ∀ (j : Job) (err : String), j.retry_count < 5 →
      (process_uploaded_file_failure j err).1.retry_count = j.retry_count + 1 ∧
      (process_uploaded_file_failure j err).1.status = Status.running ∧
      (process_uploaded_file_failure j err).2 = some (60 * (j.retry_count + 1)) := by
    intro j err hlt
    simp [process_uploaded_file_failure, hlt]
  have hstop : ∀ (j : Job) (err : String), ¬ j.retry_count < 5 →
      (process_uploaded_file_failure j err).1.status = Status.failed ∧
      (process_uploaded_file_failure j err).1.retry_count = j.retry_count ∧
      (process_uploaded_file_failure j err).2 = none := by
    intro j err hge
    simp [process_uploaded_file_failure, hge, mark_failed_status, mark_failed_retry_count]
  refine ⟨hstep, hstop, ?_⟩
  intro j err h0
  have run : ∀ (n : Nat) (j' : Job), j'.retry_count + n = 5 →
      (failNTimes j' err n).retry_count = 5 ∧
      (failNTimes j' err n).status = (if n = 0 then j'.status else Status.running) := by
    intro n
    induction n with
    | zero =>
      intro j' hj
      simp [failNTimes]
      omega
    | succ m ihm =>
      intro j' hj
      have hs := hstep j' err (by omega)
      rw [failNTimes]
      rcases ihm (process_uploaded_file_failure j' err).1 (by rw [hs.1]; omega) with ⟨hrc, hst⟩
      refine ⟨hrc, ?_⟩
      rw [hst]
      by_cases hm0 : m = 0
      · simp [hm0, hs.2.1]
      · simp [hm0]
  have h5 := run 5 j (by omega)
  have comm : ∀ (n : Nat) (j' : Job),
      failNTimes j' err (n + 1) = (process_uploaded_file_failure (failNTimes j' err n) err).1 := by
    intro n
    induction n with
    | zero => intro j'; rfl
    | succ m ihm =>
      intro j'
      rw [failNTimes, ihm, failNTimes]
  have hge : ¬ (failNTimes j err 5).retry_count < 5 := by rw [h5.1]; omega
  refine ⟨?_, ?_, (hstop _ err hge).2.2⟩
  · rw [comm 5 j]
    exact (hstop _ err hge).1
  · rw [comm 5 j, (hstop _ err hge).2.1, h5.1]

/-- Witness for C3 (amended) at a concrete fresh job: six straight errors
leave it failed with retry count 5 and nothing re-enqueued. -/
theorem ingestion_retry_policy_witness :
    jPG.retry_count < 5 ∧ jPG.retry_count = 0 ∧
    (process_uploaded_file_failure jPG "e").1.retry_count = jPG.retry_count + 1 ∧
    (failNTimes jPG "e" 6).status = Status.failed ∧
    (failNTimes jPG "e" 6).retry_count = 5 :=
  ⟨by decide, rfl,
   (ingestion_retry_policy.1 jPG "e" (by decide)).1,
   (ingestion_retry_policy.2.2 jPG "e" rfl).1,
   (ingestion_retry_policy.2.2 jPG "e" rfl).2.1⟩

/-- The boolean dedup gate agrees with the existence of a completed job for
the fingerprint and channel. -/
lemma has_successful_job_iff (db : List Job) (h : String) (t : IngestionType) :
    has_successful_job db h t = true ↔
      ∃ j ∈ db, j.file_hash = h ∧ j.ingestion_type = t ∧ j.status = Status.completed := by
  simp [has_successful_job, List.any_eq_true, and_assoc]

/-- C1: the Postgres intake short-circuits with `is_duplicate=true` and the
prior job's metadata — creating nothing and dispatching nothing — exactly
when a completed job with the same hash exists on the Postgres channel;
otherwise (in particular when only failed, running or queued jobs exist for
the fingerprint) a new job is created with status running and retry count 0
and work is dispatched. -/
theorem ingest_postgres_dedup :
    ∀ (db : List Job) (h : String) (nid : Nat),
      ((∃ j ∈ db, j.file_hash = h ∧ j.ingestion_type = IngestionType.postgres ∧
          j.status = Status.completed) →
        (ingest_postgres db h nid).response.is_duplicate = true ∧
        (ingest_postgres db h nid).db = db ∧
        (ingest_postgres db h nid).dispatched = [] ∧
        ∃ j ∈ db, j.file_hash = h ∧ j.ingestion_type = IngestionType.postgres ∧
          j.status = Status.completed ∧
          (ingest_postgres db h nid).response.job_id = j.id ∧
          (ingest_postgres db h nid).response.status = j.status ∧
          (ingest_postgres db h nid).response.file_hash = j.file_hash) ∧
      (¬ (∃ j ∈ db, j.file_hash = h ∧ j.ingestion_type = IngestionType.postgres ∧
          j.status = Status.completed) →
        (ingest_postgres db h nid).response.is_duplicate = false ∧
        (∃ jn : Job, (ingest_postgres db h nid).db = jn :: db ∧
          jn.id = nid ∧ jn.file_hash = h ∧
          jn.ingestion_type = IngestionType.postgres ∧
          jn.status = Status.running ∧ jn.retry_count = 0) ∧
        (ingest_postgres db h nid).dispatched = [DispatchCall.processUploadedFile nid]) := by
  intro db h nid
  constructor
  · rintro ⟨j, hj, hfh, hit, hst⟩
    have hhs : has_successful_job db h IngestionType.postgres = true :=
      (has_successful_job_iff db h IngestionType.postgres).mpr ⟨j, hj, hfh, hit, hst⟩
    cases hfind : db.find? (fun j => j.file_hash == h &&
        j.ingestion_type == IngestionType.postgres && j.status == Status.completed) with
    | none =>
      exfalso
      rw [List.find?_eq_none] at hfind
      exact hfind j hj (by simp [hfh, hit, hst])
    | some cj =>
      have hp := List.find?_some hfind
      have hmem := List.mem_of_find?_eq_some hfind
      simp only [Bool.and_eq_true, beq_iff_eq] at hp
      unfold ingest_postgres
      rw [if_pos hhs, hfind]
      exact ⟨rfl, rfl, rfl, cj, hmem, hp.1.1, hp.1.2, hp.2, rfl, rfl, rfl⟩
  · intro hnone
    have hhs : ¬ has_successful_job db h IngestionType.postgres = true := fun hc =>
      hnone ((has_successful_job_iff db h IngestionType.postgres).mp hc)
    unfold ingest_postgres
    rw [if_neg hhs]
    exact ⟨rfl, ⟨_, rfl, rfl, rfl, rfl, rfl, rfl⟩, rfl⟩

/-- A completed Postgres job for fingerprint `h`, for the C1 witness. -/
def jDone : Job :=
  { id := 7, file_hash := "h", ingestion_type := IngestionType.postgres,
    status := Status.completed, table_name := some "t", inserted_count := some 3 }

/-- A failed Postgres job for fingerprint `h`, for the C1 witness. -/
def jFailedPG : Job :=
  { id := 8, file_hash := "h", ingestion_type := IngestionType.postgres,
    status := Status.failed, retry_count := 5 }

/-- Witness for C1: with a completed job present the resubmission
short-circuits; with only a failed job present a new job is created and
work dispatched. -/
theorem ingest_postgres_dedup_witness :
    ((ingest_postgres [jDone] "h" 9).response.is_duplicate = true ∧
     (ingest_postgres [jDone] "h" 9).db = [jDone] ∧
     (ingest_postgres [jDone] "h" 9).dispatched = []) ∧
    ((ingest_postgres [jFailedPG] "h" 9).response.is_duplicate = false ∧
     (ingest_postgres [jFailedPG] "h" 9).dispatched =
       [DispatchCall.processUploadedFile 9]) := by
  constructor
  · have hdup := (ingest_postgres_dedup [jDone] "h" 9).1
      ⟨jDone, by simp, rfl, rfl, rfl⟩
    exact ⟨hdup.1, hdup.2.1, hdup.2.2.1⟩
  · have hnew := (ingest_postgres_dedup [jFailedPG] "h" 9).2 (by decide)
    exact ⟨hnew.1, hnew.2.2⟩

/-- C2: the S3 upload intake short-circuits with `is_duplicate=true` and the
existing job's id and current status — creating nothing and dispatching
nothing — exactly when any job (of any status) with the same hash exists on
the S3 channel; a new running job is created and work dispatched only when
no such job exists at all. -/
theorem upload_to_s3_dedup :
    ∀ (db : List Job) (h : String) (nid : Nat) (kind : PayloadKind),
      ((∃ j ∈ db, j.file_hash = h ∧ j.ingestion_type = IngestionType.s3) →
        (upload_to_s3 db h nid kind).response.is_duplicate = true ∧
        (upload_to_s3 db h nid kind).db = db ∧
        (upload_to_s3 db h nid kind).dispatched = [] ∧
        ∃ j ∈ db, j.file_hash = h ∧ j.ingestion_type = IngestionType.s3 ∧
          (upload_to_s3 db h nid kind).response.job_id = j.id ∧
          (upload_to_s3 db h nid kind).response.status = j.status) ∧
      (¬ (∃ j ∈ db, j.file_hash = h ∧ j.ingestion_type = IngestionType.s3) →
        (upload_to_s3 db h nid kind).response.is_duplicate = false ∧
        (∃ jn : Job, (upload_to_s3 db h nid kind).db = jn :: db ∧
          jn.id = nid ∧ jn.file_hash = h ∧ jn.ingestion_type = IngestionType.s3 ∧
          jn.status = Status.running ∧ jn.retry_count = 0) ∧
        (upload_to_s3 db h nid kind).dispatched ≠ []) := by
  intro db h nid kind
  constructor
  · rintro ⟨j, hj, hfh, hit⟩
    cases hfind : db.find? (fun j => j.file_hash == h &&
        j.ingestion_type == IngestionType.s3) with
    | none =>
      exfalso
      rw [List.find?_eq_none] at hfind
      exact hfind j hj (by simp [hfh, hit])
    | some ex =>
      have hp := List.find?_some hfind
      have hmem := List.mem_of_find?_eq_some hfind
      simp only [Bool.and_eq_true, beq_iff_eq] at hp
      unfold upload_to_s3
      rw [hfind]
      exact ⟨rfl, rfl, rfl, ex, hmem, hp.1, hp.2, rfl, rfl⟩
  · intro hnone
    cases hfind : db.find? (fun j => j.file_hash == h &&
        j.ingestion_type == IngestionType.s3) with
    | some ex =>
      exfalso
      have hp := List.find?_some hfind
      have hmem := List.mem_of_find?_eq_some hfind
      simp only [Bool.and_eq_true, beq_iff_eq] at hp
      exact hnone ⟨ex, hmem, hp.1, hp.2⟩
    | none =>
      unfold upload_to_s3
      rw [hfind]
      refine ⟨rfl, ⟨_, rfl, rfl, rfl, rfl, rfl, rfl⟩, ?_⟩
      cases kind <;> simp [uploadToS3Create]

/-- A failed S3 job for fingerprint `hs`, for the C2 witness: on this
channel even a failed job blocks resubmission. -/
def jFailedS3 : Job :=
  { id := 11, file_hash := "hs", ingestion_type := IngestionType.s3,
    status := Status.failed, retry_count := 1 }

/-- Witness for C2: with a failed S3 job present the resubmission
short-circuits without new work; with no job present a new job is created. -/
theorem upload_to_s3_dedup_witness :
    ((upload_to_s3 [jFailedS3] "hs" 12 PayloadKind.single).response.is_duplicate = true ∧
     (upload_to_s3 [jFailedS3] "hs" 12 PayloadKind.single).db = [jFailedS3] ∧
     (upload_to_s3 [jFailedS3] "hs" 12 PayloadKind.single).dispatched = []) ∧
    ((upload_to_s3 [] "hs" 12 PayloadKind.single).response.is_duplicate = false ∧
     (upload_to_s3 [] "hs" 12 PayloadKind.single).dispatched ≠ []) := by
  constructor
  · have hdup := (upload_to_s3_dedup [jFailedS3] "hs" 12 PayloadKind.single).1
      ⟨jFailedS3, by simp, rfl, rfl⟩
    exact ⟨hdup.1, hdup.2.1, hdup.2.2.1⟩
  · have hnew := (upload_to_s3_dedup [] "hs" 12 PayloadKind.single).2 (by decide)
    exact ⟨hnew.1, hnew.2.2⟩

/-! ### Path-normalizer lemmas (C6, C7) -/

/-- Splitting never yields an empty list of pieces. -/
lemma splitSlash_ne_nil (l : List Char) : splitSlash l ≠ [] := by
  cases l with
  | nil => simp [splitSlash]
  | cons c cs =>
    simp only [splitSlash]
    split <;> simp

/-- Splitting a list always decomposes into a head piece and the rest. -/
lemma splitSlash_cons_decomp (l : List Char) :
    ∃ s0 rest, splitSlash l = s0 :: rest := by
  cases hs : splitSlash l with
  | nil => exact absurd hs (splitSlash_ne_nil l)
  | cons s0 rest => exact ⟨s0, rest, rfl⟩

/-- A traversal piece survives stripping leading slashes. -/
lemma traversal_mem_dropWhile (l : List Char) :
    ['.', '.'] ∈ splitSlash l → ['.', '.'] ∈ splitSlash (l.dropWhile (· = '/')) := by
  induction l with
  | nil => intro hm; simpa using hm
  | cons c cs ih =>
    intro hm
    by_cases hc : c = '/'
    · subst hc
      rw [List.dropWhile_cons_of_pos (by simp)]
      simp only [splitSlash, if_pos rfl] at hm
      rcases List.mem_cons.mp hm with h1 | h2
      · cases h1
      · exact ih h2
    · rwa [List.dropWhile_cons_of_neg (by simpa using hc)]

/-- The segment loop raises the traversal error whenever a `..` piece is
present. -/
lemma collectSegments_traversal (l : List (List Char)) :
    ['.', '.'] ∈ l → collectSegments l = Except.error PathError.traversal := by
  induction l with
  | nil => intro h; cases h
  | cons s rest ih =>
    intro hm
    rw [collectSegments]
    rcases List.mem_cons.mp hm with h1 | h2
    · rw [if_neg (by rw [← h1]; simp), if_pos h1.symm]
    · by_cases h0 : s = [] ∨ s = ['.']
      · rw [if_pos h0]
        exact ih h2
      · rw [if_neg h0]
        by_cases hdd : s = ['.', '.']
        · rw [if_pos hdd]
        · rw [if_neg hdd, ih h2]
          rfl

/-- C6: every input containing a `..` segment anywhere (in its cleaned form,
with both separator conventions unified) is rejected by
`normalize_relative_path` with the traversal `ValueError`; the segment is
never resolved or dropped. -/
theorem normalize_rejects_traversal :
    ∀ p : List Char, hasTraversalSegment p →
      normalize_relative_path p = Except.error PathError.traversal := by
  intro p hp
  unfold hasTraversalSegment cleanedPath at hp
  have hne : pyStrip (replaceBackslash p) ≠ [] := by
    intro h0
    rw [h0] at hp
    simp [splitSlash] at hp
  have hmem2 : ['.', '.'] ∈ splitSlash
      (if (pyStrip (replaceBackslash p)).head? = some '/'
       then (pyStrip (replaceBackslash p)).dropWhile (· = '/')
       else pyStrip (replaceBackslash p)) := by
    split
    · exact traversal_mem_dropWhile _ hp
    · exact hp
  simp only [normalize_relative_path]
  rw [if_neg hne, collectSegments_traversal _ hmem2]

/-- Witness for C6 at the concrete input `a/../b`. -/
theorem normalize_rejects_traversal_witness :
    hasTraversalSegment ('a' :: '/' :: '.' :: '.' :: '/' :: 'b' :: []) ∧
    normalize_relative_path ('a' :: '/' :: '.' :: '.' :: '/' :: 'b' :: []) =
      Except.error PathError.traversal :=
  ⟨by decide, normalize_rejects_traversal _ (by decide)⟩

/-- Characters of the stripped list come from the original list. -/
lemma mem_pyStrip {c : Char} {l : List Char} (h : c ∈ pyStrip l) : c ∈ l := by
  unfold pyStrip at h
  rw [List.mem_reverse] at h
  have h1 := (List.dropWhile_sublist (p := isPySpace)
    (l := (l.dropWhile isPySpace).reverse)).subset h
  rw [List.mem_reverse] at h1
  exact (List.dropWhile_sublist (p := isPySpace) (l := l)).subset h1

/-- After separator unification no backslash remains. -/
lemma replaceBackslash_no_bs {c : Char} {l : List Char}
    (h : c ∈ replaceBackslash l) : c ≠ '\\' := by
  unfold replaceBackslash at h
  rcases List.mem_map.mp h with ⟨a, _, ha⟩
  by_cases hb : a = '\\'
  · rw [← ha, if_pos hb]
    decide
  · rw [← ha, if_neg hb]
    exact hb

/-- Separator unification is the identity on backslash-free input. -/
lemma replaceBackslash_eq_self : ∀ {l : List Char}, (∀ c ∈ l, c ≠ '\\') →
    replaceBackslash l = l := by
  intro l
  induction l with
  | nil => intro _; rfl
  | cons a as ih =>
    intro h
    show (if a = '\\' then '/' else a) :: replaceBackslash as = a :: as
    rw [if_neg (h a (List.mem_cons_self a as)),
        ih (fun c hc => h c (List.mem_cons_of_mem a hc))]

/-- Characters of any split piece come from the split input. -/
lemma mem_of_mem_splitSlash {c : Char} :
    ∀ (l s : List Char), s ∈ splitSlash l → c ∈ s → c ∈ l := by
  intro l
  induction l with
  | nil =>
    intro s hs hc
    simp [splitSlash] at hs
    subst hs
    cases hc
  | cons a cs ih =>
    intro s hs hc
    obtain ⟨s0, rest, hr⟩ := splitSlash_cons_decomp cs
    by_cases ha : a = '/'
    · subst ha
      simp only [splitSlash, if_pos rfl] at hs
      rcases List.mem_cons.mp hs with h1 | h2
      · subst h1; cases hc
      · exact List.mem_cons_of_mem _ (ih s h2 hc)
    · simp only [splitSlash, hr, if_neg ha, List.headI, List.tail_cons] at hs
      rcases List.mem_cons.mp hs with h1 | h2
      · subst h1
        rcases List.mem_cons.mp hc with hc1 | hc2
        · subst hc1; exact List.mem_cons_self _ _
        · exact List.mem_cons_of_mem _
            (ih s0 (by rw [hr]; exact List.mem_cons_self _ _) hc2)
      · exact List.mem_cons_of_mem _
          (ih s (by rw [hr]; exact List.mem_cons_of_mem _ h2) hc)

/-- Split pieces never contain a slash. -/
lemma no_slash_of_mem_splitSlash {c : Char} :
    ∀ (l s : List Char), s ∈ splitSlash l → c ∈ s → c ≠ '/' := by
  intro l
  induction l with
  | nil =>
    intro s hs hc
    simp [splitSlash] at hs
    subst hs
    cases hc
  | cons a cs ih =>
    intro s hs hc
    obtain ⟨s0, rest, hr⟩ := splitSlash_cons_decomp cs
    by_cases ha : a = '/'
    · subst ha
      simp only [splitSlash, if_pos rfl] at hs
      rcases List.mem_cons.mp hs with h1 | h2
      · subst h1; cases hc
      · exact ih s h2 hc
    · simp only [splitSlash, hr, if_neg ha, List.headI, List.tail_cons] at hs
      rcases List.mem_cons.mp hs with h1 | h2
      · subst h1
        rcases List.mem_cons.mp hc with hc1 | hc2
        · subst hc1; exact ha
        · exact ih s0 (by rw [hr]; exact List.mem_cons_self _ _) hc2
      · exact ih s (by rw [hr]; exact List.mem_cons_of_mem _ h2) hc

/-- Kept segments all come from the split input. -/
lemma collectSegments_sub :
    ∀ (l r : List (List Char)), collectSegments l = Except.ok r →
      ∀ s ∈ r, s ∈ l := by
  intro l
  induction l with
  | nil =>
    intro r hr s hs
    simp only [collectSegments] at hr
    cases hr
    cases hs
  | cons a rest ih =>
    intro r hr s hs
    rw [collectSegments] at hr
    by_cases h0 : a = [] ∨ a = ['.']
    · rw [if_pos h0] at hr
      exact List.mem_cons_of_mem _ (ih r hr s hs)
    · rw [if_neg h0] at hr
      by_cases hdd : a = ['.', '.']
      · rw [if_pos hdd] at hr
        cases hr
      · rw [if_neg hdd] at hr
        cases hrec : collectSegments rest with
        | error e => rw [hrec] at hr; cases hr
        | ok r' =>
          rw [hrec] at hr
          cases hr
          rcases List.mem_cons.mp hs with h1 | h2
          · subst h1; exact List.mem_cons_self _ _
          · exact List.mem_cons_of_mem _ (ih r' hrec s h2)

/-- Kept segments are nonempty and neither `.` nor `..`. -/
lemma collectSegments_valid :
    ∀ (l r : List (List Char)), collectSegments l = Except.ok r →
      ∀ s ∈ r, ¬ (s = [] ∨ s = ['.']) ∧ s ≠ ['.', '.'] := by
  intro l
  induction l with
  | nil =>
    intro r hr s hs
    simp only [collectSegments] at hr
    cases hr
    cases hs
  | cons a rest ih =>
    intro r hr s hs
    rw [collectSegments] at hr
    by_cases h0 : a = [] ∨ a = ['.']
    · rw [if_pos h0] at hr
      exact ih r hr s hs
    · rw [if_neg h0] at hr
      by_cases hdd : a = ['.', '.']
      · rw [if_pos hdd] at hr
        cases hr
      · rw [if_neg hdd] at hr
        cases hrec : collectSegments rest with
        | error e => rw [hrec] at hr; cases hr
        | ok r' =>
          rw [hrec] at hr
          cases hr
          rcases List.mem_cons.mp hs with h1 | h2
          · subst h1; exact ⟨h0, hdd⟩
          · exact ih r' hrec s h2

/-- The segment loop keeps a list of already-valid segments unchanged. -/
lemma collectSegments_of_valid :
    ∀ (l : List (List Char)),
      (∀ s ∈ l, ¬ (s = [] ∨ s = ['.']) ∧ s ≠ ['.', '.']) →
      collectSegments l = Except.ok l := by
  intro l
  induction l with
  | nil => intro _; rfl
  | cons a rest ih =>
    intro h
    have ha := h a (List.mem_cons_self a rest)
    rw [collectSegments, if_neg ha.1, if_neg ha.2,
        ih (fun s hs => h s (List.mem_cons_of_mem a hs))]
    rfl

/-- Splitting a slash-free list yields that list as its only piece. -/
lemma splitSlash_no_slash :
    ∀ (s : List Char), (∀ c ∈ s, c ≠ '/') → splitSlash s = [s] := by
  intro s
  induction s with
  | nil => intro _; rfl
  | cons c cs ih =>
    intro h
    simp only [splitSlash, ih (fun x hx => h x (List.mem_cons_of_mem c hx)),
      if_neg (h c (List.mem_cons_self c cs)), List.headI, List.tail_cons]

/-- Splitting after a slash-free list prepends it to the first piece. -/
lemma splitSlash_append_cons :
    ∀ (s l : List Char) (s0 : List Char) (rest : List (List Char)),
      (∀ c ∈ s, c ≠ '/') → splitSlash l = s0 :: rest →
      splitSlash (s ++ l) = (s ++ s0) :: rest := by
  intro s
  induction s with
  | nil => intro l s0 rest _ hl; simpa using hl
  | cons c cs ih =>
    intro l s0 rest h hl
    have hrec := ih l s0 rest (fun x hx => h x (List.mem_cons_of_mem c hx)) hl
    show splitSlash (c :: (cs ++ l)) = (c :: (cs ++ s0)) :: rest
    simp only [splitSlash, hrec, if_neg (h c (List.mem_cons_self c cs)),
      List.headI, List.tail_cons]

/-- Splitting the slash-join of valid slash-free segments recovers them. -/
lemma splitSlash_joinSlash :
    ∀ (segs : List (List Char)), segs ≠ [] →
      (∀ s ∈ segs, ∀ c ∈ s, c ≠ '/') →
      splitSlash (joinSlash segs) = segs := by
  intro segs
  induction segs with
  | nil => intro h; exact absurd rfl h
  | cons s rest ih =>
    intro _ h
    cases rest with
    | nil =>
      exact splitSlash_no_slash s (h s (List.mem_cons_self s []))
    | cons s2 rest2 =>
      have hrec := ih (by simp) (fun x hx c hc => h x (List.mem_cons_of_mem s hx) c hc)
      rw [joinSlash]
      have hsplit2 : splitSlash ('/' :: joinSlash (s2 :: rest2)) =
          [] :: (s2 :: rest2) := by
        simp [splitSlash, hrec]
      rw [splitSlash_append_cons s _ [] (s2 :: rest2)
        (h s (List.mem_cons_self s _)) hsplit2, List.append_nil]

/-- Every character of a slash-join is a slash or comes from a segment. -/
lemma mem_joinSlash :
    ∀ (segs : List (List Char)) (c : Char), c ∈ joinSlash segs →
      c = '/' ∨ ∃ s ∈ segs, c ∈ s := by
  intro segs
  induction segs with
  | nil => intro c hc; cases hc
  | cons s rest ih =>
    intro c hc
    cases rest with
    | nil =>
      right
      exact ⟨s, List.mem_cons_self s [], by simpa [joinSlash] using hc⟩
    | cons s2 rest2 =>
      rw [joinSlash, List.mem_append] at hc
      rcases hc with hc1 | hc2
      · exact Or.inr ⟨s, List.mem_cons_self s _, hc1⟩
      · rcases List.mem_cons.mp hc2 with hc3 | hc4
        · exact Or.inl hc3
        · rcases ih c hc4 with h | ⟨t, ht, hct⟩
          · exact Or.inl h
          · exact Or.inr ⟨t, List.mem_cons_of_mem s ht, hct⟩

/-- The head of a slash-join of segments is the head of the first segment
when that segment is nonempty. -/
lemma joinSlash_head (c : Char) (s0 : List Char) (rest : List (List Char)) :
    (joinSlash ((c :: s0) :: rest)).head? = some c := by
  cases rest <;> simp [joinSlash]

/-- Counterexample to C7: normalizing the input `/ x` (leading slash, then a
segment beginning with a space) succeeds with result ` x`, but normalizing
` x` strips the now-leading space and returns `x`, so normalization is not
idempotent as stated. -/
theorem normalize_not_idempotent_counterexample :
    normalize_relative_path ('/' :: ' ' :: 'x' :: []) = Except.ok (' ' :: 'x' :: []) ∧
    normalize_relative_path (' ' :: 'x' :: []) = Except.ok ('x' :: []) ∧
    (' ' :: 'x' :: []) ≠ ('x' :: []) := by
  refine ⟨by decide, by decide, by decide⟩

/-- C7 (amended): normalization is idempotent on every input whose
normalized result carries no leading or trailing whitespace: if
`normalize_relative_path p` succeeds with `n` and `n` is strip-stable, then
renormalizing `n` succeeds and returns `n` unchanged.  (The extra condition
is forced by the counterexample: an interior segment can begin or end with
whitespace that the second pass would strip.) -/
theorem normalize_idempotent_of_trimmed :
    ∀ (p n : List Char), normalize_relative_path p = Except.ok n →
      pyStrip n = n → normalize_relative_path n = Except.ok n := by
  intro p n hok htrim
  simp only [normalize_relative_path] at hok
  split at hok
  · simp at hok
  · generalize hq : (if (pyStrip (replaceBackslash p)).head? = some '/'
        then (pyStrip (replaceBackslash p)).dropWhile (· = '/')
        else pyStrip (replaceBackslash p)) = q at hok
    cases hcs : collectSegments (splitSlash q) with
    | error e => rw [hcs] at hok; simp at hok
    | ok segs =>
      rw [hcs] at hok
      change (if joinSlash segs = [] then Except.error PathError.emptyResult
        else Except.ok (joinSlash segs)) = Except.ok n at hok
      by_cases hje : joinSlash segs = []
      · rw [if_pos hje] at hok
        simp at hok
      · rw [if_neg hje] at hok
        have hn : joinSlash segs = n := Except.ok.inj hok
        have hvalid := collectSegments_valid _ _ hcs
        have hsub := collectSegments_sub _ _ hcs
        have hnoslash : ∀ s ∈ segs, ∀ c ∈ s, c ≠ '/' :=
          fun s hs c hc => no_slash_of_mem_splitSlash q s (hsub s hs) hc
        have hsegs_ne : segs ≠ [] := fun he => hje (by rw [he]; rfl)
        have hnn : n ≠ [] := fun he => hje (hn.trans he)
        have hq_chars : ∀ c ∈ q, c ≠ '\\' := by
          intro c hc
          have hc2 : c ∈ pyStrip (replaceBackslash p) := by
            rw [← hq] at hc
            by_cases hh : (pyStrip (replaceBackslash p)).head? = some '/'
            · rw [if_pos hh] at hc
              exact (List.dropWhile_sublist _).subset hc
            · rw [if_neg hh] at hc
              exact hc
          exact replaceBackslash_no_bs (mem_pyStrip hc2)
        have hn_chars : ∀ c ∈ n, c ≠ '\\' := by
          intro c hc
          rw [← hn] at hc
          rcases mem_joinSlash segs c hc with hsl | ⟨s, hs, hcs2⟩
          · subst hsl; decide
          · exact hq_chars c (mem_of_mem_splitSlash q s (hsub s hs) hcs2)
        have hrb : replaceBackslash n = n := replaceBackslash_eq_self hn_chars
        obtain ⟨s0, rest, hsegs⟩ : ∃ s0 rest, segs = s0 :: rest := by
          cases segs with
          | nil => exact absurd rfl hsegs_ne
          | cons a b => exact ⟨a, b, rfl⟩
        obtain ⟨c0, s0t, hs0⟩ : ∃ c0 s0t, s0 = c0 :: s0t := by
          cases s0 with
          | nil =>
            exact absurd (Or.inl rfl)
              (hvalid [] (by rw [hsegs]; exact List.mem_cons_self _ _)).1
          | cons a b => exact ⟨a, b, rfl⟩
        have hhead : n.head? = some c0 := by
          rw [← hn, hsegs, hs0]
          exact joinSlash_head c0 s0t rest
        have hc0 : c0 ≠ '/' :=
          hnoslash s0 (by rw [hsegs]; exact List.mem_cons_self _ _) c0
            (by rw [hs0]; exact List.mem_cons_self _ _)
        simp only [normalize_relative_path, hrb, htrim]
        rw [if_neg hnn, if_neg (by rw [hhead]; simp [hc0]), ← hn,
          splitSlash_joinSlash segs hsegs_ne hnoslash,
          collectSegments_of_valid segs hvalid]
        change (if joinSlash segs = [] then Except.error PathError.emptyResult
          else Except.ok (joinSlash segs)) = Except.ok (joinSlash segs)
        rw [if_neg hje]

/-- Witness for C7 (amended) at the concrete input `a//b/./c`, whose
normalized form `a/b/c` is strip-stable and renormalizes to itself. -/
theorem normalize_idempotent_of_trimmed_witness :
    normalize_relative_path
        ('a' :: '/' :: '/' :: 'b' :: '/' :: '.' :: '/' :: 'c' :: []) =
      Except.ok ('a' :: '/' :: 'b' :: '/' :: 'c' :: []) ∧
    pyStrip ('a' :: '/' :: 'b' :: '/' :: 'c' :: []) =
      ('a' :: '/' :: 'b' :: '/' :: 'c' :: []) ∧
    normalize_relative_path ('a' :: '/' :: 'b' :: '/' :: 'c' :: []) =
      Except.ok ('a' :: '/' :: 'b' :: '/' :: 'c' :: []) :=
  ⟨by decide, by decide,
   normalize_idempotent_of_trimmed
     ('a' :: '/' :: '/' :: 'b' :: '/' :: '.' :: '/' :: 'c' :: [])
     ('a' :: '/' :: 'b' :: '/' :: 'c' :: []) (by decide) (by decide)⟩

/-! ### Directory-hash lemmas (C5) -/

/-- Lexicographic string order is asymmetric. -/
lemma strLt_asymm : ∀ (a b : List Char), strLt a b = true → strLt b a = false := by
  intro a
  induction a with
  | nil =>
    intro b h
    cases b with
    | nil => simp [strLt] at h
    | cons y ys => rfl
  | cons x xs ih =>
    intro b h
    cases b with
    | nil => simp [strLt] at h
    | cons y ys =>
      simp only [strLt] at h ⊢
      by_cases h1 : x < y
      · rw [if_neg (asymm h1), if_pos h1]
      · rw [if_neg h1] at h
        by_cases h2 : y < x
        · rw [if_pos h2] at h
          cases h
        · rw [if_neg h2] at h
          rw [if_neg h2, if_neg h1]
          exact ih ys h

/-- Two strings neither of which is below the other are equal. -/
lemma strLt_conn : ∀ (a b : List Char), strLt a b = false → strLt b a = false → a = b := by
  intro a
  induction a with
  | nil =>
    intro b h1 _
    cases b with
    | nil => rfl
    | cons y ys => simp [strLt] at h1
  | cons x xs ih =>
    intro b h1 h2
    cases b with
    | nil => simp [strLt] at h2
    | cons y ys =>
      simp only [strLt] at h1 h2
      by_cases hxy : x < y
      · rw [if_pos hxy] at h1
        cases h1
      · by_cases hyx : y < x
        · rw [if_pos hyx] at h2
          cases h2
        · have hx : x = y := le_antisymm (not_lt.mp hyx) (not_lt.mp hxy)
          rw [if_neg hxy, if_neg hyx] at h1
          rw [if_neg hyx, if_neg hxy] at h2
          rw [hx, ih ys h1 h2]

/-- Lexicographic string order is transitive. -/
lemma strLt_trans : ∀ (a b c : List Char), strLt a b = true → strLt b c = true →
    strLt a c = true := by
  intro a
  induction a with
  | nil =>
    intro b c h1 h2
    cases b with
    | nil => simp [strLt] at h1
    | cons y ys =>
      cases c with
      | nil => simp [strLt] at h2
      | cons z zs => rfl
  | cons x xs ih =>
    intro b c h1 h2
    cases b with
    | nil => simp [strLt] at h1
    | cons y ys =>
      cases c with
      | nil => simp [strLt] at h2
      | cons z zs =>
        simp only [strLt] at h1 h2 ⊢
        by_cases hxy : x < y
        · by_cases hyz : y < z
          · rw [if_pos (lt_trans hxy hyz)]
          · by_cases hzy : z < y
            · rw [if_neg hyz, if_pos hzy] at h2
              cases h2
            · have hyz2 : y = z := le_antisymm (not_lt.mp hzy) (not_lt.mp hyz)
              rw [if_pos (hyz2 ▸ hxy)]
        · by_cases hyx : y < x
          · rw [if_neg hxy, if_pos hyx] at h1
            cases h1
          · have hxy2 : x = y := le_antisymm (not_lt.mp hyx) (not_lt.mp hxy)
            subst hxy2
            rw [if_neg hxy, if_neg hyx] at h1
            by_cases hxz : x < z
            · rw [if_pos hxz]
            · by_cases hzx : z < x
              · rw [if_neg hxz, if_pos hzx] at h2
                cases h2
              · rw [if_neg hxz, if_neg hzx] at h2
                rw [if_neg hxz, if_neg hzx]
                exact ih ys zs h1 h2

/-- The sort comparison on entries is transitive. -/
lemma entryLe_trans (a b c : DirEntry) :
    entryLe a b = true → entryLe b c = true → entryLe a c = true := by
  simp only [entryLe, Bool.not_eq_true']
  intro h1 h2
  cases hca : strLt c.path a.path with
  | false => rfl
  | true =>
    exfalso
    cases hab : strLt a.path b.path with
    | true =>
      have := strLt_trans _ _ _ hca hab
      rw [this] at h2
      cases h2
    | false =>
      have hpl : a.path = b.path := strLt_conn _ _ hab h1
      rw [← hpl, hca] at h2
      cases h2

/-- The sort comparison on entries is total. -/
lemma entryLe_total (a b : DirEntry) : (entryLe a b || entryLe b a) = true := by
  simp only [entryLe, Bool.not_eq_true']
  cases hba : strLt b.path a.path with
  | false => simp
  | true => simp [strLt_asymm _ _ hba]

/-- Two sorted permutations of each other with pairwise-distinct paths are
equal. -/
lemma eq_of_perm_sorted_nodup :
    ∀ (l1 l2 : List DirEntry), l1.Perm l2 →
      l1.Pairwise (fun a b => entryLe a b = true) →
      l2.Pairwise (fun a b => entryLe a b = true) →
      (l1.map DirEntry.path).Nodup → l1 = l2 := by
  intro l1
  induction l1 with
  | nil =>
    intro l2 hp _ _ _
    exact (List.Perm.eq_nil hp.symm).symm
  | cons a t1 ih =>
    intro l2 hp hs1 hs2 hnd
    cases l2 with
    | nil => exact absurd (List.Perm.eq_nil hp) (by simp)
    | cons b t2 =>
      by_cases hab : a = b
      · subst hab
        rw [ih t2 hp.cons_inv (List.pairwise_cons.mp hs1).2
          (List.pairwise_cons.mp hs2).2 (List.nodup_cons.mp (by simpa using hnd)).2]
      · exfalso
        have hamem : a ∈ b :: t2 := hp.mem_iff.mp (List.mem_cons_self a t1)
        have hbmem : b ∈ a :: t1 := hp.mem_iff.mpr (List.mem_cons_self b t2)
        have hat2 : a ∈ t2 := by
          rcases List.mem_cons.mp hamem with h | h
          · exact absurd h hab
          · exact h
        have hbt1 : b ∈ t1 := by
          rcases List.mem_cons.mp hbmem with h | h
          · exact absurd h.symm hab
          · exact h
        have h1 : entryLe a b = true := (List.pairwise_cons.mp hs1).1 b hbt1
        have h2 : entryLe b a = true := (List.pairwise_cons.mp hs2).1 a hat2
        have e1 : strLt b.path a.path = false := by simpa [entryLe, Bool.not_eq_true'] using h1
        have e2 : strLt a.path b.path = false := by simpa [entryLe, Bool.not_eq_true'] using h2
        have hpl : a.path = b.path := strLt_conn _ _ e2 e1
        have hmem : a.path ∈ t1.map DirEntry.path := by
          rw [hpl]
          exact List.mem_map_of_mem DirEntry.path hbt1
        exact (List.nodup_cons.mp (by simpa using hnd)).1 hmem

/-- C5 (amended): the directory digest is invariant under every permutation
of the entry list provided the entry paths are pairwise distinct; the stable
sort then canonicalizes both orders to the same list, so the hashed byte
stream is identical. -/
theorem directory_hash_perm_invariant :
    ∀ (l1 l2 : List DirEntry), l1.Perm l2 → (l1.map DirEntry.path).Nodup →
      compute_directory_hash l1 = compute_directory_hash l2 := by
  intro l1 l2 hp hnd
  have hms : l1.mergeSort entryLe = l2.mergeSort entryLe := by
    apply eq_of_perm_sorted_nodup
    · exact (List.mergeSort_perm l1 entryLe).trans
        (hp.trans (List.mergeSort_perm l2 entryLe).symm)
    · exact List.sorted_mergeSort entryLe_trans entryLe_total l1
    · exact List.sorted_mergeSort entryLe_trans entryLe_total l2
    · exact (((List.mergeSort_perm l1 entryLe).map DirEntry.path).nodup_iff).mpr hnd
  by_cases h1 : l1 = []
  · subst h1
    rw [List.Perm.eq_nil hp.symm]
  · have h2 : l2 ≠ [] := by
      intro he
      subst he
      exact h1 (List.Perm.eq_nil hp)
    unfold compute_directory_hash
    rw [if_neg h1, if_neg h2]
    unfold dirTranscript
    rw [hms]

set_option maxRecDepth 1000000 in
/-- Sanity check: the embedded SHA-256 reproduces the FIPS 180-4 test vector
for the message `abc`. -/
theorem sha256_abc_vector :
    sha256Hex [97, 98, 99] =
      "ba7816bf8f01cfea414140de5dae2223b00361a396177a9cb410ff61f20015ad" := by
  decide

/-- Two entries sharing the path `p` with different one-byte contents, for
the C5 counterexample. -/
def dupA : DirEntry := ⟨['p'], [97]⟩

/-- Second entry of the C5 counterexample pair. -/
def dupB : DirEntry := ⟨['p'], [98]⟩

set_option maxRecDepth 1000000 in
/-- Counterexample to C5 as stated: with two entries sharing a path, the
stable sort preserves their input order, so the two orders feed different
byte streams to SHA-256 and the digests differ. -/
theorem directory_hash_not_perm_invariant_counterexample :
    ([dupA, dupB] : List DirEntry).Perm [dupB, dupA] ∧
    compute_directory_hash [dupA, dupB] ≠ compute_directory_hash [dupB, dupA] := by
  constructor
  · exact List.Perm.swap dupB dupA []
  · have hs1 : List.mergeSort [dupA, dupB] entryLe = [dupA, dupB] :=
      List.mergeSort_of_sorted (by decide)
    have hs2 : List.mergeSort [dupB, dupA] entryLe = [dupB, dupA] :=
      List.mergeSort_of_sorted (by decide)
    unfold compute_directory_hash dirTranscript
    rw [hs1, hs2]
    decide

/-- Entries matching the spec scenario (paths `a/b.csv` and `c.csv`), for
the C5 witness. -/
def entAB : DirEntry := ⟨['a', '/', 'b', '.', 'c', 's', 'v'], [49]⟩

/-- Second entry of the C5 witness pair. -/
def entC : DirEntry := ⟨['c', '.', 'c', 's', 'v'], [50]⟩

/-- Witness for C5 (amended): reversing a two-entry distinct-path payload
leaves the digest unchanged. -/
theorem directory_hash_perm_invariant_witness :
    ([entAB, entC] : List DirEntry).Perm [entC, entAB] ∧
    (([entAB, entC] : List DirEntry).map DirEntry.path).Nodup ∧
    compute_directory_hash [entAB, entC] = compute_directory_hash [entC, entAB] :=
  ⟨List.Perm.swap entC entAB [], by decide,
   directory_hash_perm_invariant [entAB, entC] [entC, entAB]
     (List.Perm.swap entC entAB []) (by decide)⟩

end Phlc
